import Mathlib

/-!
# Verification of the openclaw-mission-control orchestration core

Shallow embedding of the task-orchestration and access-control core of the
repository, together with the frontend helpers that are present verbatim in
the source tree (TaskCard.tsx, formatters.ts).

The backend orchestration core (task state machine, delegation controller,
access resolver, approval gate) is not shipped under src/: only its agent
templates, docs and frontend callers are.  Those parts are therefore
modelled from the specification, with each such definition carrying a doc
comment starting with "Modelled from the spec:".  The frontend helpers are
translated directly from the TypeScript sources.
-/

set_option maxRecDepth 4096

/-- Task lifecycle status, as in the spec data model and in
src/frontend/src/components/molecules/TaskCard.tsx
(TaskStatus = "inbox" | "in_progress" | "review" | "done"). -/
inductive Status where
  | inbox
  | inProgress
  | review
  | done
deriving DecidableEq, Repr, Fintype

/-- Task priority, from the spec data model. -/
inductive Priority where
  | low
  | medium
  | high
deriving DecidableEq, Repr

/-- Modelled from the spec: a Task belongs to one board, has a status, a
priority, an optional assigned agent id and is identified by an id. -/
structure McTask where
  id : Nat
  boardId : Nat
  status : Status
  priority : Priority
  assigned : Option Nat
deriving DecidableEq, Repr

/-- Modelled from the spec: an automated actor; workers are bound to a
board, the single lead of a board carries the lead mark. -/
structure AgentRec where
  id : Nat
  isLead : Bool
  boardId : Option Nat
deriving DecidableEq, Repr

/-- Modelled from the spec: the actor performing a state-machine call is
either an organization admin (or owner) or an agent. -/
inductive Actor where
  | admin (memberId : Nat)
  | agent (a : AgentRec)
deriving DecidableEq, Repr

/-- Modelled from the spec error taxonomy (§7), plus a distinct case for a
call naming an unknown task id and one for a failed external audit-note
append (§6: append-note failure blocks the transition). -/
inductive McError where
  | accessDenied
  | conflictError
  | illegalTransitionError
  | missingEvidenceError
  | roleViolationError
  | thresholdPendingError
  | unknownTask
  | auditAppendFailed
deriving DecidableEq, Repr

/-- Modelled from the spec (§4.2): the legal transition table of the task
state machine.  States: inbox → in_progress → review → done, no backward
transitions except the reopen path review → in_progress, done terminal. -/
def legalEdge : Status → Status → Bool
  | Status.inbox, Status.inProgress => true
  | Status.inProgress, Status.review => true
  | Status.review, Status.done => true
  | Status.review, Status.inProgress => true
  | _, _ => false

/-- C4: the task lifecycle step relation permits exactly the edges
inbox→in_progress, in_progress→review, review→done and review→in_progress;
every other pair of distinct statuses is an illegal transition, and no
transition leaves the done state. -/
theorem C4_lifecycle_edges :
    (∀ a b : Status, legalEdge a b = true ↔
      ((a = Status.inbox ∧ b = Status.inProgress) ∨
       (a = Status.inProgress ∧ b = Status.review) ∨
       (a = Status.review ∧ b = Status.done) ∨
       (a = Status.review ∧ b = Status.inProgress))) ∧
    (∀ b : Status, legalEdge Status.done b = false) := by
  refine ⟨?_, ?_⟩ <;> decide

/-- Modelled from the spec: the orchestration state, the task set plus the
durable audit log of (task id, note) pairs appended by transitions. -/
structure MCState where
  tasks : List McTask
  notes : List (Nat × String)
deriving DecidableEq, Repr

/-- A task counts against agent a's exclusivity budget when it is
in_progress and assigned to a. -/
def busyFor (a : Nat) (t : McTask) : Bool :=
  t.status == Status.inProgress && t.assigned == some a

/-- Number of in_progress tasks currently held by agent a. -/
def agentBusyCount (tasks : List McTask) (a : Nat) : Nat :=
  tasks.countP (busyFor a)

/-- Update the first task carrying the given id; leave the rest unchanged. -/
def setTask (tid : Nat) (f : McTask → McTask) : List McTask → List McTask
  | [] => []
  | t :: ts => if t.id = tid then f t :: ts else t :: setTask tid f ts

theorem setTask_of_find_none (tid : Nat) (f : McTask → McTask) :
    ∀ l : List McTask, l.find? (fun t => t.id == tid) = none → setTask tid f l = l := by
  intro l
  induction l with
  | nil => intro _; rfl
  | cons t ts ih =>
    intro h
    by_cases htid : t.id = tid
    · exfalso
      have : (fun t : McTask => t.id == tid) t = true := by simp [htid]
      rw [List.find?_cons_of_pos ts this] at h
      exact Option.noConfusion h
    · have hne : ¬ ((fun t : McTask => t.id == tid) t = true) := by simp [htid]
      rw [List.find?_cons_of_neg ts hne] at h
      simp [setTask, htid, ih h]

theorem countP_setTask_find (p : McTask → Bool) (tid : Nat) (f : McTask → McTask) :
    ∀ (l : List McTask) (t0 : McTask), l.find? (fun t => t.id == tid) = some t0 →
      (setTask tid f l).countP p + (if p t0 then 1 else 0) =
        l.countP p + (if p (f t0) then 1 else 0) := by
  intro l
  induction l with
  | nil => intro t0 h; exact Option.noConfusion h
  | cons t ts ih =>
    intro t0 h
    by_cases htid : t.id = tid
    · have hp : (fun t : McTask => t.id == tid) t = true := by simp [htid]
      rw [List.find?_cons_of_pos ts hp] at h
      cases h
      simp only [setTask, if_pos htid, List.countP_cons]
      omega
    · have hne : ¬ ((fun t : McTask => t.id == tid) t = true) := by simp [htid]
      rw [List.find?_cons_of_neg ts hne] at h
      have := ih t0 h
      simp only [setTask, if_neg htid, List.countP_cons]
      omega

theorem mem_setTask (tid : Nat) (f : McTask → McTask) :
    ∀ (l : List McTask) (u : McTask), u ∈ setTask tid f l →
      u ∈ l ∨ ∃ t, t ∈ l ∧ t.id = tid ∧ u = f t := by
  intro l
  induction l with
  | nil => intro u h; exact absurd h (List.not_mem_nil u)
  | cons t ts ih =>
    intro u h
    by_cases htid : t.id = tid
    · simp only [setTask, if_pos htid] at h
      rcases List.mem_cons.mp h with h1 | h1
      · exact Or.inr ⟨t, List.mem_cons_self t ts, htid, h1⟩
      · exact Or.inl (List.mem_cons_of_mem t h1)
    · simp only [setTask, if_neg htid] at h
      rcases List.mem_cons.mp h with h1 | h1
      · exact Or.inl (h1 ▸ List.mem_cons_self t ts)
      · rcases ih u h1 with h2 | ⟨t1, ht1, ht2, ht3⟩
        · exact Or.inl (List.mem_cons_of_mem t h2)
        · exact Or.inr ⟨t1, List.mem_cons_of_mem t ht1, ht2, ht3⟩

/-- True when the actor is an organization admin/owner or the lead agent of
the task's board. -/
def isAdminOrBoardLead (actor : Actor) (t : McTask) : Bool :=
  match actor with
  | Actor.admin _ => true
  | Actor.agent a => a.isLead && a.boardId == some t.boardId

/-- Modelled from the spec (§4.2 claim): legal only if the task is inbox
and unassigned or already assigned to the calling agent; fails with
ConflictError when the agent already holds an in_progress task, checked
transactionally against the agent's full task set; on success sets
assigned_agent_id and moves the task to in_progress. -/
def claimTask (s : MCState) (tid : Nat) (agent : AgentRec) : Except McError MCState :=
  if agentBusyCount s.tasks agent.id ≠ 0 then Except.error McError.conflictError
  else
    match s.tasks.find? (fun t => t.id == tid) with
    | none => Except.error McError.unknownTask
    | some t =>
      if t.status ≠ Status.inbox then Except.error McError.illegalTransitionError
      else if ¬ (t.assigned = none ∨ t.assigned = some agent.id) then
        Except.error McError.conflictError
      else Except.ok
        { tasks := setTask tid
            (fun u => { u with status := Status.inProgress, assigned := some agent.id }) s.tasks,
          notes := s.notes }

/-- A reopen (review → in_progress) would hand the task back to a holder
that meanwhile acquired another in_progress task. -/
def reopenBlocked (s : MCState) (t : McTask) : Bool :=
  match t.assigned with
  | some x => agentBusyCount s.tasks x != 0
  | none => false

/-- True when the actor is the task's current holder: the agent recorded
in assigned_agent_id. -/
def isHolder (actor : Actor) (t : McTask) : Bool :=
  match actor with
  | Actor.admin _ => false
  | Actor.agent a => t.assigned == some a.id

/-- Modelled from the spec (§4.2 transition, §6 comment/audit log): rejects
a call without a note with MissingEvidenceError, validates
from == task.status and that the edge is in the legal table, validates the
actor (current holder for in_progress→review, admin or the board's lead
for review→done and review→in_progress), applies the exclusivity check
atomically wherever the target status is in_progress (§5), and blocks the
whole transition when the external append-note call fails (all-or-nothing). -/
def transitionTask (s : MCState) (tid : Nat) (fromSt toSt : Status)
    (actor : Actor) (note : Option String) (appendOk : Bool) :
    Except McError MCState :=
  match note with
  | none => Except.error McError.missingEvidenceError
  | some msg =>
    match s.tasks.find? (fun t => t.id == tid) with
    | none => Except.error McError.unknownTask
    | some t =>
      if fromSt ≠ t.status then Except.error McError.illegalTransitionError
      else if ¬ legalEdge fromSt toSt then Except.error McError.illegalTransitionError
      else
        match fromSt, toSt with
        | Status.inbox, Status.inProgress =>
          match actor with
          | Actor.admin _ => Except.error McError.accessDenied
          | Actor.agent a =>
            if ¬ (t.assigned = none ∨ t.assigned = some a.id) then
              Except.error McError.conflictError
            else if agentBusyCount s.tasks a.id ≠ 0 then Except.error McError.conflictError
            else if ¬ appendOk then Except.error McError.auditAppendFailed
            else Except.ok
              { tasks := setTask tid
                  (fun u => { u with status := Status.inProgress, assigned := some a.id }) s.tasks,
                notes := (tid, msg) :: s.notes }
        | Status.inProgress, Status.review =>
          if ¬ isHolder actor t then Except.error McError.accessDenied
          else if ¬ appendOk then Except.error McError.auditAppendFailed
          else Except.ok
            { tasks := setTask tid (fun u => { u with status := Status.review }) s.tasks,
              notes := (tid, msg) :: s.notes }
        | Status.review, Status.done =>
          if ¬ isAdminOrBoardLead actor t then Except.error McError.accessDenied
          else if ¬ appendOk then Except.error McError.auditAppendFailed
          else Except.ok
            { tasks := setTask tid (fun u => { u with status := Status.done }) s.tasks,
              notes := (tid, msg) :: s.notes }
        | Status.review, Status.inProgress =>
          if ¬ isAdminOrBoardLead actor t then Except.error McError.accessDenied
          else if reopenBlocked s t then Except.error McError.conflictError
          else if ¬ appendOk then Except.error McError.auditAppendFailed
          else Except.ok
            { tasks := setTask tid (fun u => { u with status := Status.inProgress }) s.tasks,
              notes := (tid, msg) :: s.notes }
        | _, _ => Except.error McError.illegalTransitionError

/-- Modelled from the spec (§4.3 delegate): preconditions
leadAgent.isLead, candidateAgent.id ≠ leadAgent.id and task.status ==
inbox; assigns the candidate without changing the status (the worker then
claims the task itself). -/
def delegateTask (s : MCState) (lead : AgentRec) (tid : Nat) (cand : AgentRec) :
    Except McError MCState :=
  if ¬ lead.isLead then Except.error McError.roleViolationError
  else if cand.id = lead.id then Except.error McError.roleViolationError
  else
    match s.tasks.find? (fun t => t.id == tid) with
    | none => Except.error McError.unknownTask
    | some t =>
      if t.status ≠ Status.inbox then Except.error McError.illegalTransitionError
      else Except.ok
        { tasks := setTask tid (fun u => { u with assigned := some cand.id }) s.tasks,
          notes := s.notes }

/-- A lead agent trying to hand the task to itself. -/
def selfAssignAttempt (actor : Actor) (newAgent : Nat) : Bool :=
  match actor with
  | Actor.agent a => newAgent == a.id
  | Actor.admin _ => false

/-- Modelled from the spec (§4.2 reassign): only an admin or the board's
lead may call it; the lead may never set newAgent = lead.id; the
exclusivity check applies atomically when the task is in_progress (§5). -/
def reassignTask (s : MCState) (tid : Nat) (newAgent : Nat) (actor : Actor) :
    Except McError MCState :=
  match s.tasks.find? (fun t => t.id == tid) with
  | none => Except.error McError.unknownTask
  | some t =>
    if ¬ isAdminOrBoardLead actor t then Except.error McError.accessDenied
    else if selfAssignAttempt actor newAgent then Except.error McError.roleViolationError
    else if t.status = Status.inProgress ∧ agentBusyCount s.tasks newAgent ≠ 0 then
      Except.error McError.conflictError
    else Except.ok
      { tasks := setTask tid (fun u => { u with assigned := some newAgent }) s.tasks,
        notes := s.notes }

/-- Run an operation result against the pre-state: a failed operation
leaves the state unchanged (no partial commit, §5). -/
def applyExcept (s : MCState) (r : Except McError MCState) : MCState :=
  match r with
  | Except.ok s2 => s2
  | Except.error _ => s

/-- The exclusivity invariant: at most one task per agent is in_progress. -/
def ExclusiveInv (s : MCState) : Prop :=
  ∀ a : Nat, agentBusyCount s.tasks a ≤ 1

theorem claimTask_preserves_exclusive (s : MCState) (tid : Nat) (ag : AgentRec)
    (s2 : MCState) (hinv : ExclusiveInv s) (h : claimTask s tid ag = Except.ok s2) :
    ExclusiveInv s2 := by
  unfold claimTask at h
  split at h
  · exact absurd h (by simp)
  next hbusy =>
    split at h
    · exact absurd h (by simp)
    next t hfind =>
      split at h
      · exact absurd h (by simp)
      next hstatus =>
        split at h
        · exact absurd h (by simp)
        next hassign =>
          cases h
          intro b
          have key := countP_setTask_find (busyFor b) tid
            (fun u => { u with status := Status.inProgress, assigned := some ag.id })
            s.tasks t hfind
          have hstatus' : t.status = Status.inbox := by
            by_contra hc; exact hstatus hc
          have h1 : busyFor b t = false := by
            simp [busyFor, hstatus']
          by_cases hb : busyFor b
              { t with status := Status.inProgress, assigned := some ag.id } = true
          · have hbag : b = ag.id := by
              simp [busyFor] at hb
              omega
            have hz : agentBusyCount s.tasks b = 0 := by
              rw [hbag]
              omega
            unfold agentBusyCount at hz ⊢
            dsimp only
            simp [h1, hb] at key
            omega
          · have hb' : busyFor b
                { t with status := Status.inProgress, assigned := some ag.id } = false :=
              Bool.eq_false_iff.mpr hb
            have := hinv b
            unfold agentBusyCount at this ⊢
            dsimp only
            simp [h1, hb'] at key
            omega

theorem exclusive_setTask_start (s : MCState) (tid aid : Nat) (t : McTask)
    (hinv : ExclusiveInv s)
    (hfind : s.tasks.find? (fun u => u.id == tid) = some t)
    (hstatus : t.status ≠ Status.inProgress)
    (hz : agentBusyCount s.tasks aid = 0) :
    ∀ b : Nat, List.countP (busyFor b)
      (setTask tid (fun u => { u with status := Status.inProgress, assigned := some aid })
        s.tasks) ≤ 1 := by
  intro b
  have key := countP_setTask_find (busyFor b) tid
    (fun u => { u with status := Status.inProgress, assigned := some aid }) s.tasks t hfind
  have hsf : (t.status == Status.inProgress) = false := by simp [hstatus]
  have h1 : busyFor b t = false := by simp [busyFor, hsf]
  by_cases hb : busyFor b { t with status := Status.inProgress, assigned := some aid } = true
  · have hbag : aid = b := by simp [busyFor] at hb; exact hb
    have hz' : agentBusyCount s.tasks b = 0 := hbag ▸ hz
    unfold agentBusyCount at hz'
    simp [h1, hb] at key
    omega
  · have hb' := Bool.eq_false_iff.mpr hb
    have hold := hinv b
    unfold agentBusyCount at hold
    simp [h1, hb'] at key
    omega

theorem exclusive_setTask_stop (s : MCState) (tid : Nat) (newStatus : Status) (t : McTask)
    (hinv : ExclusiveInv s)
    (hfind : s.tasks.find? (fun u => u.id == tid) = some t)
    (hns : newStatus ≠ Status.inProgress) :
    ∀ b : Nat, List.countP (busyFor b)
      (setTask tid (fun u => { u with status := newStatus }) s.tasks) ≤ 1 := by
  intro b
  have key := countP_setTask_find (busyFor b) tid
    (fun u => { u with status := newStatus }) s.tasks t hfind
  have hsf : (newStatus == Status.inProgress) = false := by simp [hns]
  have h2 : busyFor b { t with status := newStatus } = false := by simp [busyFor, hsf]
  have hold := hinv b
  unfold agentBusyCount at hold
  simp [h2] at key
  by_cases hbt : busyFor b t = true
  · simp [hbt] at key; omega
  · simp [Bool.eq_false_iff.mpr hbt] at key; omega

theorem exclusive_setTask_reopen (s : MCState) (tid : Nat) (t : McTask)
    (hinv : ExclusiveInv s)
    (hfind : s.tasks.find? (fun u => u.id == tid) = some t)
    (hstatus : t.status ≠ Status.inProgress)
    (hrb : reopenBlocked s t = false) :
    ∀ b : Nat, List.countP (busyFor b)
      (setTask tid (fun u => { u with status := Status.inProgress }) s.tasks) ≤ 1 := by
  intro b
  have key := countP_setTask_find (busyFor b) tid
    (fun u => { u with status := Status.inProgress }) s.tasks t hfind
  have hsf : (t.status == Status.inProgress) = false := by simp [hstatus]
  have h1 : busyFor b t = false := by simp [busyFor, hsf]
  by_cases hb : busyFor b { t with status := Status.inProgress } = true
  · have hassign : t.assigned = some b := by simp [busyFor] at hb; exact hb
    have hz : agentBusyCount s.tasks b = 0 := by
      unfold reopenBlocked at hrb
      rw [hassign] at hrb
      simpa using hrb
    unfold agentBusyCount at hz
    simp [h1, hb] at key
    omega
  · have hb' := Bool.eq_false_iff.mpr hb
    have hold := hinv b
    unfold agentBusyCount at hold
    simp [h1, hb'] at key
    omega

theorem exclusive_setTask_assign (s : MCState) (tid na : Nat) (t : McTask)
    (hinv : ExclusiveInv s)
    (hfind : s.tasks.find? (fun u => u.id == tid) = some t)
    (hcond : t.status = Status.inProgress → agentBusyCount s.tasks na = 0) :
    ∀ b : Nat, List.countP (busyFor b)
      (setTask tid (fun u => { u with assigned := some na }) s.tasks) ≤ 1 := by
  intro b
  have key := countP_setTask_find (busyFor b) tid
    (fun u => { u with assigned := some na }) s.tasks t hfind
  by_cases hb : busyFor b { t with assigned := some na } = true
  · have hpair : t.status = Status.inProgress ∧ na = b := by
      simpa [busyFor] using hb
    have hz : agentBusyCount s.tasks b = 0 := hpair.2 ▸ hcond hpair.1
    unfold agentBusyCount at hz
    simp [hb] at key
    by_cases hbt : busyFor b t = true
    · simp [hbt] at key; omega
    · simp [Bool.eq_false_iff.mpr hbt] at key; omega
  · have hb' := Bool.eq_false_iff.mpr hb
    have hold := hinv b
    unfold agentBusyCount at hold
    simp [hb'] at key
    by_cases hbt : busyFor b t = true
    · simp [hbt] at key; omega
    · simp [Bool.eq_false_iff.mpr hbt] at key; omega

theorem transitionTask_preserves_exclusive (s : MCState) (tid : Nat)
    (fromSt toSt : Status) (actor : Actor) (note : Option String) (ap : Bool)
    (s2 : MCState) (hinv : ExclusiveInv s)
    (h : transitionTask s tid fromSt toSt actor note ap = Except.ok s2) :
    ExclusiveInv s2 := by
  unfold transitionTask at h
  split at h
  · exact absurd h (by simp)
  next msg =>
    split at h
    · exact absurd h (by simp)
    next t hfind =>
      split at h
      · exact absurd h (by simp)
      next hfrom =>
        split at h
        · exact absurd h (by simp)
        next hlegal =>
          have hfrom' : fromSt = t.status := by
            by_contra hc; exact hfrom hc
          split at h
          · -- inbox → in_progress
            next hf ht =>
            split at h
            · exact absurd h (by simp)
            next a =>
              split at h
              · exact absurd h (by simp)
              next hassign =>
                split at h
                · exact absurd h (by simp)
                next hbusy =>
                  split at h
                  · exact absurd h (by simp)
                  next happ =>
                    cases h
                    intro b
                    unfold agentBusyCount
                    dsimp only
                    exact exclusive_setTask_start s tid a.id t hinv hfind
                      (by rw [← hfrom']; exact fun hc => Status.noConfusion hc)
                      (by omega) b
          · -- in_progress → review
            next hf ht =>
            split at h
            · exact absurd h (by simp)
            next hholder =>
              split at h
              · exact absurd h (by simp)
              next happ =>
                cases h
                intro b
                unfold agentBusyCount
                dsimp only
                exact exclusive_setTask_stop s tid Status.review t hinv hfind
                  (fun hc => Status.noConfusion hc) b
          · -- review → done
            next hf ht =>
            split at h
            · exact absurd h (by simp)
            next hauth =>
              split at h
              · exact absurd h (by simp)
              next happ =>
                cases h
                intro b
                unfold agentBusyCount
                dsimp only
                exact exclusive_setTask_stop s tid Status.done t hinv hfind
                  (fun hc => Status.noConfusion hc) b
          · -- review → in_progress (reopen)
            next hf ht =>
            split at h
            · exact absurd h (by simp)
            next hauth =>
              split at h
              · exact absurd h (by simp)
              next hrb =>
                split at h
                · exact absurd h (by simp)
                next happ =>
                  cases h
                  intro b
                  unfold agentBusyCount
                  dsimp only
                  exact exclusive_setTask_reopen s tid t hinv hfind
                    (by rw [← hfrom']; exact fun hc => Status.noConfusion hc)
                    (Bool.eq_false_iff.mpr hrb) b
          · -- remaining (illegal) pairs
            exact absurd h (by simp)

theorem delegateTask_preserves_exclusive (s : MCState) (lead : AgentRec) (tid : Nat)
    (cand : AgentRec) (s2 : MCState) (hinv : ExclusiveInv s)
    (h : delegateTask s lead tid cand = Except.ok s2) : ExclusiveInv s2 := by
  unfold delegateTask at h
  split at h
  · exact absurd h (by simp)
  split at h
  · exact absurd h (by simp)
  split at h
  · exact absurd h (by simp)
  next t hfind =>
    split at h
    · exact absurd h (by simp)
    next hstatus =>
      cases h
      intro b
      unfold agentBusyCount
      dsimp only
      have hstatus' : t.status = Status.inbox := by
        by_contra hc; exact hstatus hc
      exact exclusive_setTask_assign s tid cand.id t hinv hfind
        (fun hc => absurd (hstatus' ▸ hc) (fun he => Status.noConfusion he)) b

theorem reassignTask_preserves_exclusive (s : MCState) (tid na : Nat) (actor : Actor)
    (s2 : MCState) (hinv : ExclusiveInv s)
    (h : reassignTask s tid na actor = Except.ok s2) : ExclusiveInv s2 := by
  unfold reassignTask at h
  split at h
  · exact absurd h (by simp)
  next t hfind =>
    split at h
    · exact absurd h (by simp)
    next hauth =>
      split at h
      · exact absurd h (by simp)
      next hself =>
        split at h
        · exact absurd h (by simp)
        next hcond =>
          cases h
          intro b
          unfold agentBusyCount
          dsimp only
          exact exclusive_setTask_assign s tid na t hinv hfind
            (fun hip => by
              by_contra hc
              exact hcond ⟨hip, hc⟩) b

/-- A freshly created task: born in inbox, unassigned. -/
def newTask (tid bid : Nat) (pri : Priority) : McTask :=
  { id := tid, boardId := bid, status := Status.inbox, priority := pri,
    assigned := none }

theorem createTask_preserves_exclusive (s : MCState) (tid bid : Nat) (pri : Priority)
    (hinv : ExclusiveInv s) :
    ExclusiveInv ⟨newTask tid bid pri :: s.tasks, s.notes⟩ := by
  intro b
  unfold agentBusyCount
  dsimp only
  rw [List.countP_cons]
  have hb : busyFor b (newTask tid bid pri) = false := by
    simp [busyFor, newTask]
  simp [hb]
  exact hinv b

/-- Modelled from the spec: one orchestration step against the persisted
state — task creation (by an admin or an approved task.create action, born
in inbox and unassigned with a fresh id), a claim, a state-machine
transition, a delegation or a reassignment. -/
inductive Step : MCState → MCState → Prop where
  | create (s : MCState) (tid bid : Nat) (pri : Priority)
      (hfresh : s.tasks.all (fun t => t.id != tid) = true) :
      Step s ⟨newTask tid bid pri :: s.tasks, s.notes⟩
  | claimed (s : MCState) (tid : Nat) (agent : AgentRec) (s2 : MCState)
      (h : claimTask s tid agent = Except.ok s2) : Step s s2
  | transitioned (s : MCState) (tid : Nat) (fromSt toSt : Status) (actor : Actor)
      (note : Option String) (ap : Bool) (s2 : MCState)
      (h : transitionTask s tid fromSt toSt actor note ap = Except.ok s2) : Step s s2
  | delegated (s : MCState) (lead : AgentRec) (tid : Nat) (cand : AgentRec) (s2 : MCState)
      (h : delegateTask s lead tid cand = Except.ok s2) : Step s s2
  | reassigned (s : MCState) (tid na : Nat) (actor : Actor) (s2 : MCState)
      (h : reassignTask s tid na actor = Except.ok s2) : Step s s2

/-- Modelled from the spec: states reachable from an empty board deployment
through the orchestration operations. -/
inductive Reachable : MCState → Prop where
  | init : Reachable ⟨[], []⟩
  | next (s s2 : MCState) (hs : Reachable s) (h : Step s s2) : Reachable s2

theorem step_preserves_exclusive (s s2 : MCState) (hinv : ExclusiveInv s)
    (h : Step s s2) : ExclusiveInv s2 := by
  cases h with
  | create tid bid pri hfresh => exact createTask_preserves_exclusive s tid bid pri hinv
  | claimed tid agent s2x h2 => exact claimTask_preserves_exclusive s tid agent _ hinv h2
  | transitioned tid fromSt toSt actor note ap s2x h2 =>
    exact transitionTask_preserves_exclusive s tid fromSt toSt actor note ap _ hinv h2
  | delegated lead tid cand s2x h2 =>
    exact delegateTask_preserves_exclusive s lead tid cand _ hinv h2
  | reassigned tid na actor s2x h2 =>
    exact reassignTask_preserves_exclusive s tid na actor _ hinv h2

theorem reachable_exclusive (s : MCState) (h : Reachable s) : ExclusiveInv s := by
  induction h with
  | init => intro a; simp [agentBusyCount]
  | next s s2 hs hstep ih => exact step_preserves_exclusive s s2 ih hstep

/-- C1: in every reachable system state, at most one task has status
in_progress with assigned_agent_id equal to any given agent; and a claim
call by an agent that already holds some other in_progress task fails with
ConflictError and changes no task state. -/
theorem C1_worker_exclusivity :
    (∀ s : MCState, Reachable s → ∀ a : Nat, agentBusyCount s.tasks a ≤ 1) ∧
    (∀ (s : MCState) (tid : Nat) (agent : AgentRec),
      (∃ t ∈ s.tasks, t.id ≠ tid ∧ busyFor agent.id t = true) →
      claimTask s tid agent = Except.error McError.conflictError ∧
      applyExcept s (claimTask s tid agent) = s) := by
  constructor
  · exact fun s hs => reachable_exclusive s hs
  · intro s tid agent h
    obtain ⟨t, ht, hne, hbusy⟩ := h
    have hpos : 0 < s.tasks.countP (busyFor agent.id) :=
      List.countP_pos_iff.mpr ⟨t, ht, hbusy⟩
    have hnz : agentBusyCount s.tasks agent.id ≠ 0 := by
      unfold agentBusyCount; omega
    have hc : claimTask s tid agent = Except.error McError.conflictError := by
      unfold claimTask; rw [if_pos hnz]
    exact ⟨hc, by rw [hc]; rfl⟩

/-- Witness for C1: the empty state is reachable and satisfies the bound;
an agent holding task 1 in_progress cannot claim inbox task 2. -/
theorem C1_worker_exclusivity_witness :
    agentBusyCount (MCState.mk [] []).tasks 5 ≤ 1 ∧
    claimTask ⟨[⟨1, 0, Status.inProgress, Priority.high, some 5⟩,
      ⟨2, 0, Status.inbox, Priority.low, none⟩], []⟩ 2 ⟨5, false, some 0⟩ =
      Except.error McError.conflictError := by
  constructor
  · exact C1_worker_exclusivity.1 ⟨[], []⟩ Reachable.init 5
  · exact (C1_worker_exclusivity.2 ⟨[⟨1, 0, Status.inProgress, Priority.high, some 5⟩,
      ⟨2, 0, Status.inbox, Priority.low, none⟩], []⟩ 2 ⟨5, false, some 0⟩
      ⟨⟨1, 0, Status.inProgress, Priority.high, some 5⟩, by decide, by decide, by decide⟩).1

/-- C3: a successful delegate run implies the preconditions
leadAgent.isLead, candidateAgent.id ≠ leadAgent.id and task.status ==
inbox, and neither delegate nor a reassign invoked by a lead ever produces
a state with a task newly assigned to that lead. -/
theorem C3_lead_never_self :
    (∀ (s : MCState) (lead : AgentRec) (tid : Nat) (cand : AgentRec) (s2 : MCState),
      delegateTask s lead tid cand = Except.ok s2 →
      lead.isLead = true ∧ cand.id ≠ lead.id ∧
      (∃ t ∈ s.tasks, t.id = tid ∧ t.status = Status.inbox) ∧
      (∀ u ∈ s2.tasks, u.assigned = some lead.id → u ∈ s.tasks)) ∧
    (∀ (s : MCState) (tid na : Nat) (L : AgentRec) (s2 : MCState),
      reassignTask s tid na (Actor.agent L) = Except.ok s2 →
      na ≠ L.id ∧ (∀ u ∈ s2.tasks, u.assigned = some L.id → u ∈ s.tasks)) := by
  constructor
  · intro s lead tid cand s2 h
    unfold delegateTask at h
    split at h
    · exact absurd h (by simp)
    next hlead =>
      split at h
      · exact absurd h (by simp)
      next hcand =>
        split at h
        · exact absurd h (by simp)
        next t hfind =>
          split at h
          · exact absurd h (by simp)
          next hstatus =>
            cases h
            have hid : t.id = tid := by
              have := List.find?_some hfind
              simpa using this
            have hst : t.status = Status.inbox := by
              by_contra hc; exact hstatus hc
            refine ⟨by by_contra hc; exact hlead hc, hcand,
              ⟨t, List.mem_of_find?_eq_some hfind, hid, hst⟩, ?_⟩
            intro u hu hassigned
            dsimp only at hu
            rcases mem_setTask tid _ s.tasks u hu with h1 | ⟨t1, _, _, ht3⟩
            · exact h1
            · exfalso
              rw [ht3] at hassigned
              dsimp only at hassigned
              have : cand.id = lead.id := by
                have := Option.some.inj hassigned
                exact this
              exact hcand this
  · intro s tid na L s2 h
    unfold reassignTask at h
    split at h
    · exact absurd h (by simp)
    next t hfind =>
      split at h
      · exact absurd h (by simp)
      next hauth =>
        split at h
        · exact absurd h (by simp)
        next hself =>
          split at h
          · exact absurd h (by simp)
          next hcond =>
            cases h
            have hna : na ≠ L.id := by
              intro hc
              apply hself
              unfold selfAssignAttempt
              simp [hc]
            refine ⟨hna, ?_⟩
            intro u hu hassigned
            dsimp only at hu
            rcases mem_setTask tid _ s.tasks u hu with h1 | ⟨t1, _, _, ht3⟩
            · exact h1
            · exfalso
              rw [ht3] at hassigned
              dsimp only at hassigned
              exact hna (Option.some.inj hassigned)

/-- Witness for C3: concrete successful delegate and lead reassign runs. -/
theorem C3_lead_never_self_witness : (5 : Nat) ≠ 9 ∧ (6 : Nat) ≠ 9 := by
  constructor
  · exact ((C3_lead_never_self.1 ⟨[⟨1, 0, Status.inbox, Priority.low, none⟩], []⟩
      ⟨9, true, some 0⟩ 1 ⟨5, false, some 0⟩
      ⟨[⟨1, 0, Status.inbox, Priority.low, some 5⟩], []⟩ (by rfl)).2).1
  · exact (C3_lead_never_self.2 ⟨[⟨1, 0, Status.inbox, Priority.low, some 5⟩], []⟩
      1 6 ⟨9, true, some 0⟩
      ⟨[⟨1, 0, Status.inbox, Priority.low, some 6⟩], []⟩ (by rfl)).1


theorem transitionTask_ok_basic (s : MCState) (tid : Nat) (fromSt toSt : Status)
    (actor : Actor) (note : Option String) (ap : Bool) (s2 : MCState)
    (h : transitionTask s tid fromSt toSt actor note ap = Except.ok s2) :
    ∃ t, s.tasks.find? (fun u => u.id == tid) = some t ∧ fromSt = t.status ∧
      legalEdge fromSt toSt = true := by
  unfold transitionTask at h
  split at h
  · exact absurd h (by simp)
  next msg =>
    split at h
    · exact absurd h (by simp)
    next t hfind =>
      split at h
      · exact absurd h (by simp)
      next hfrom =>
        split at h
        · exact absurd h (by simp)
        next hlegal =>
          exact ⟨t, hfind, by by_contra hc; exact hfrom hc,
            by by_contra hc; exact hlegal hc⟩

theorem transitionTask_holder_auth (s : MCState) (tid : Nat) (actor : Actor)
    (msg : String) (ap : Bool) (s2 : MCState) (t : McTask)
    (hfind : s.tasks.find? (fun u => u.id == tid) = some t)
    (h : transitionTask s tid Status.inProgress Status.review actor (some msg) ap =
      Except.ok s2) :
    isHolder actor t = true := by
  simp only [transitionTask, hfind] at h
  repeat' split at h
  all_goals simp_all

theorem transitionTask_review_auth (s : MCState) (tid : Nat) (toSt : Status)
    (actor : Actor) (msg : String) (ap : Bool) (s2 : MCState) (t : McTask)
    (hfind : s.tasks.find? (fun u => u.id == tid) = some t)
    (h : transitionTask s tid Status.review toSt actor (some msg) ap = Except.ok s2) :
    isAdminOrBoardLead actor t = true := by
  cases toSt <;> simp only [transitionTask, hfind, legalEdge] at h <;>
    (repeat' split at h) <;> simp_all

theorem transitionTask_ok_facts (s : MCState) (tid : Nat) (fromSt toSt : Status)
    (actor : Actor) (msg : String) (ap : Bool) (s2 : MCState)
    (h : transitionTask s tid fromSt toSt actor (some msg) ap = Except.ok s2) :
    s2.notes = (tid, msg) :: s.notes ∧ ap = true := by
  obtain ⟨t, hfind, -, -⟩ :=
    transitionTask_ok_basic s tid fromSt toSt actor (some msg) ap s2 h
  simp only [transitionTask, hfind] at h
  repeat' split at h
  all_goals (try simp_all)
  all_goals (cases h; rfl)

/-- C5: a transition succeeds only when from equals the task's current
status, the edge (from, to) is in the legal transition table, and the
actor is authorized for that edge: the current holder for
in_progress→review, an admin or the board's lead for review→done and
review→in_progress. -/
theorem C5_transition_authorization :
    ∀ (s : MCState) (tid : Nat) (fromSt toSt : Status) (actor : Actor)
      (note : Option String) (ap : Bool) (s2 : MCState),
      transitionTask s tid fromSt toSt actor note ap = Except.ok s2 →
      ∃ t ∈ s.tasks, t.id = tid ∧ fromSt = t.status ∧
        legalEdge fromSt toSt = true ∧
        ((fromSt = Status.inProgress ∧ toSt = Status.review) →
          isHolder actor t = true) ∧
        ((fromSt = Status.review ∧ (toSt = Status.done ∨ toSt = Status.inProgress)) →
          isAdminOrBoardLead actor t = true) := by
  intro s tid fromSt toSt actor note ap s2 h
  obtain ⟨t, hfind, hfrom, hlegal⟩ :=
    transitionTask_ok_basic s tid fromSt toSt actor note ap s2 h
  cases note with
  | none => simp [transitionTask] at h
  | some msg =>
    refine ⟨t, List.mem_of_find?_eq_some hfind, by simpa using List.find?_some hfind,
      hfrom, hlegal, ?_, ?_⟩
    · rintro ⟨h1, h2⟩
      subst h1; subst h2
      exact transitionTask_holder_auth s tid actor msg ap s2 t hfind h
    · rintro ⟨h1, -⟩
      subst h1
      exact transitionTask_review_auth s tid toSt actor msg ap s2 t hfind h

/-- Witness for C5: the holder of task 1 moves it from in_progress to
review with a note. -/
theorem C5_transition_authorization_witness :
    ∃ t ∈ ([⟨1, 0, Status.inProgress, Priority.low, some 5⟩] : List McTask),
      t.id = 1 ∧ Status.inProgress = t.status ∧
      legalEdge Status.inProgress Status.review = true ∧
      ((Status.inProgress = Status.inProgress ∧ Status.review = Status.review) →
        isHolder (Actor.agent ⟨5, false, some 0⟩) t = true) ∧
      ((Status.inProgress = Status.review ∧
          (Status.review = Status.done ∨ Status.review = Status.inProgress)) →
        isAdminOrBoardLead (Actor.agent ⟨5, false, some 0⟩) t = true) := by
  exact C5_transition_authorization
    ⟨[⟨1, 0, Status.inProgress, Priority.low, some 5⟩], []⟩ 1
    Status.inProgress Status.review (Actor.agent ⟨5, false, some 0⟩) (some "done") true
    ⟨[⟨1, 0, Status.review, Priority.low, some 5⟩], [(1, "done")]⟩ (by rfl)

/-- C8: a transition attempted without an accompanying note is rejected
with MissingEvidenceError and leaves the state unchanged; a failure of the
external append-note operation blocks the transition; and every successful
status mutation appends its audit note to the durable log within the same
operation. -/
theorem C8_transition_note_pairing :
    (∀ (s : MCState) (tid : Nat) (fromSt toSt : Status) (actor : Actor) (ap : Bool),
      transitionTask s tid fromSt toSt actor none ap =
        Except.error McError.missingEvidenceError ∧
      applyExcept s (transitionTask s tid fromSt toSt actor none ap) = s) ∧
    (∀ (s : MCState) (tid : Nat) (fromSt toSt : Status) (actor : Actor)
      (msg : String) (s2 : MCState),
      transitionTask s tid fromSt toSt actor (some msg) false ≠ Except.ok s2) ∧
    (∀ (s : MCState) (tid : Nat) (fromSt toSt : Status) (actor : Actor)
      (msg : String) (ap : Bool) (s2 : MCState),
      transitionTask s tid fromSt toSt actor (some msg) ap = Except.ok s2 →
      s2.notes = (tid, msg) :: s.notes) := by
  refine ⟨?_, ?_, ?_⟩
  · intro s tid fromSt toSt actor ap
    exact ⟨rfl, rfl⟩
  · intro s tid fromSt toSt actor msg s2 hok
    have hap := (transitionTask_ok_facts s tid fromSt toSt actor msg false s2 hok).2
    exact Bool.noConfusion hap
  · intro s tid fromSt toSt actor msg ap s2 hok
    exact (transitionTask_ok_facts s tid fromSt toSt actor msg ap s2 hok).1

/-- Witness for C8: concrete no-note rejection, blocked append, and the
audit note appended by a successful transition. -/
theorem C8_transition_note_pairing_witness :
    transitionTask ⟨[⟨1, 0, Status.inProgress, Priority.low, some 5⟩], []⟩ 1
      Status.inProgress Status.review (Actor.agent ⟨5, false, some 0⟩) none true =
      Except.error McError.missingEvidenceError ∧
    (transitionTask ⟨[⟨1, 0, Status.inProgress, Priority.low, some 5⟩], []⟩ 1
      Status.inProgress Status.review (Actor.agent ⟨5, false, some 0⟩) (some "m") false ≠
      Except.ok ⟨[⟨1, 0, Status.review, Priority.low, some 5⟩], [(1, "m")]⟩) ∧
    (MCState.mk [⟨1, 0, Status.review, Priority.low, some 5⟩] [(1, "m")]).notes =
      (1, "m") :: (MCState.mk [⟨1, 0, Status.inProgress, Priority.low, some 5⟩] []).notes := by
  refine ⟨?_, ?_, ?_⟩
  · exact (C8_transition_note_pairing.1
      ⟨[⟨1, 0, Status.inProgress, Priority.low, some 5⟩], []⟩ 1
      Status.inProgress Status.review (Actor.agent ⟨5, false, some 0⟩) true).1
  · exact C8_transition_note_pairing.2.1
      ⟨[⟨1, 0, Status.inProgress, Priority.low, some 5⟩], []⟩ 1
      Status.inProgress Status.review (Actor.agent ⟨5, false, some 0⟩) "m"
      ⟨[⟨1, 0, Status.review, Priority.low, some 5⟩], [(1, "m")]⟩
  · exact C8_transition_note_pairing.2.2
      ⟨[⟨1, 0, Status.inProgress, Priority.low, some 5⟩], []⟩ 1
      Status.inProgress Status.review (Actor.agent ⟨5, false, some 0⟩) "m" true
      ⟨[⟨1, 0, Status.review, Priority.low, some 5⟩], [(1, "m")]⟩ (by rfl)

/-- Approval lifecycle status, from the spec data model. -/
inductive ApprovalStatus where
  | pending
  | approved
  | rejected
deriving DecidableEq, Repr

/-- Modelled from the spec (§6 approval resolution endpoint): a human
decision {approved, resolvedBy}. -/
structure Resolution where
  approved : Bool
  resolvedBy : Nat
deriving DecidableEq, Repr

/-- Modelled from the spec: an Approval record; its status is pending
until a resolution is recorded, then approved or rejected, immutable
afterwards. -/
structure ApprovalRec where
  id : Nat
  actionType : String
  confidence : Nat
  resolution : Option Resolution
deriving DecidableEq, Repr

/-- Status derived from the recorded resolution. -/
def approvalStatus (a : ApprovalRec) : ApprovalStatus :=
  match a.resolution with
  | none => ApprovalStatus.pending
  | some r => if r.approved then ApprovalStatus.approved else ApprovalStatus.rejected

/-- Modelled from the spec (§4.4): the confidence threshold is
configuration with default 70. -/
def defaultConfidenceThreshold : Nat := 70

/-- Decision returned by the approval gate. -/
inductive Decision where
  | admitted
  | deferred (approvalId : Nat)
deriving DecidableEq, Repr

/-- Modelled from the spec (§4.4 evaluate): isRiskyOrExternal OR
confidence < threshold creates a pending Approval and defers; otherwise
the action is admitted immediately and no Approval is created. -/
def evaluate (threshold : Nat) (actionType : String) (confidence : Nat)
    (isRiskyOrExternal : Bool) (freshId : Nat) : Decision × Option ApprovalRec :=
  if isRiskyOrExternal || decide (confidence < threshold) then
    (Decision.deferred freshId, some ⟨freshId, actionType, confidence, none⟩)
  else (Decision.admitted, none)

/-- C2: with the default threshold, evaluate(a, c, false) is Admitted iff
c ≥ 70; evaluate(a, c, true) is Deferred for every c, creating a pending
Approval; and the default threshold is exactly 70. -/
theorem C2_approval_gate_threshold :
    (∀ (a : String) (c fid : Nat),
      (evaluate defaultConfidenceThreshold a c false fid).1 = Decision.admitted ↔ 70 ≤ c) ∧
    (∀ (a : String) (c fid : Nat),
      (evaluate defaultConfidenceThreshold a c true fid).1 = Decision.deferred fid ∧
      ∃ appr : ApprovalRec,
        (evaluate defaultConfidenceThreshold a c true fid).2 = some appr ∧
        approvalStatus appr = ApprovalStatus.pending) ∧
    defaultConfidenceThreshold = 70 := by
  refine ⟨?_, ?_, rfl⟩
  · intro a c fid
    unfold evaluate defaultConfidenceThreshold
    by_cases hc : c < 70
    · simp [hc]
      try omega
    · simp [hc]
      try omega
  · intro a c fid
    unfold evaluate
    simp [approvalStatus]

/-- Modelled from the spec (§4.4, §6): resolving a pending Approval
records the decision and returns the outcome; resolving an already
resolved Approval is a no-op that returns the original outcome (not an
error), so resolution is idempotent and irreversible. -/
def resolveApproval (a : ApprovalRec) (r : Resolution) : ApprovalRec × Resolution :=
  match a.resolution with
  | some r0 => (a, r0)
  | none => ({ a with resolution := some r }, r)

/-- C7: resolving a pending Approval twice, the second time with any
decision, yields the same final Approval state and the same returned
outcome as resolving it once, and the result is no longer pending. -/
theorem C7_resolution_idempotent :
    ∀ (a : ApprovalRec) (r1 r2 : Resolution),
      approvalStatus a = ApprovalStatus.pending →
      resolveApproval (resolveApproval a r1).1 r2 = resolveApproval a r1 ∧
      approvalStatus (resolveApproval a r1).1 ≠ ApprovalStatus.pending := by
  intro a r1 r2 hpending
  have hres : a.resolution = none := by
    unfold approvalStatus at hpending
    cases hr : a.resolution with
    | none => rfl
    | some r0 =>
      rw [hr] at hpending
      by_cases hap : r0.approved = true <;> simp [hap] at hpending
  constructor
  · unfold resolveApproval
    rw [hres]
  · unfold resolveApproval
    rw [hres]
    unfold approvalStatus
    dsimp only
    by_cases hap : r1.approved = true <;> simp [hap]

/-- Witness for C7: a concrete pending Approval resolved twice. -/
theorem C7_resolution_idempotent_witness :
    resolveApproval (resolveApproval ⟨3, "task.create", 55, none⟩ ⟨true, 8⟩).1 ⟨false, 9⟩ =
      resolveApproval ⟨3, "task.create", 55, none⟩ ⟨true, 8⟩ ∧
    approvalStatus (resolveApproval ⟨3, "task.create", 55, none⟩ ⟨true, 8⟩).1 ≠
      ApprovalStatus.pending := by
  exact C7_resolution_idempotent ⟨3, "task.create", 55, none⟩ ⟨true, 8⟩ ⟨false, 9⟩ (by rfl)

/-- Organization role, from the spec data model. -/
inductive Role where
  | owner
  | admin
  | member
deriving DecidableEq, Repr

/-- Modelled from the spec: a per-board grant {board_id, can_read, can_write}. -/
structure Grant where
  boardId : Nat
  canRead : Bool
  canWrite : Bool
deriving DecidableEq, Repr

/-- Modelled from the spec: a member with a role, the all-boards flags and
a set of per-board grants. -/
structure MemberRec where
  role : Role
  allBoardsRead : Bool
  allBoardsWrite : Bool
  grants : List Grant
deriving DecidableEq, Repr

/-- A board as seen by the access resolver. -/
structure BoardRec where
  id : Nat
deriving DecidableEq, Repr

/-- Result of the access resolver. -/
structure AccessResult where
  canRead : Bool
  canWrite : Bool
deriving DecidableEq, Repr

/-- The per-board grant's can_write for the board, or false when no grant
exists (absence means no access, never an error). -/
def grantWrite (m : MemberRec) (b : BoardRec) : Bool :=
  match m.grants.find? (fun g => g.boardId == b.id) with
  | some g => g.canWrite
  | none => false

/-- The per-board grant's can_read for the board, or false when no grant
exists. -/
def grantRead (m : MemberRec) (b : BoardRec) : Bool :=
  match m.grants.find? (fun g => g.boardId == b.id) with
  | some g => g.canRead
  | none => false

/-- Modelled from the spec (§4.1 resolve): owner/admin short-circuit to
full read+write; otherwise canWrite = all_boards_write OR the grant's
can_write, canRead = canWrite OR all_boards_read OR the grant's can_read.
A Lean total function: a missing grant yields false, never a failure. -/
def resolve (m : MemberRec) (b : BoardRec) : AccessResult :=
  if m.role = Role.owner ∨ m.role = Role.admin then ⟨true, true⟩
  else
    ⟨(m.allBoardsWrite || grantWrite m b) || m.allBoardsRead || grantRead m b,
      m.allBoardsWrite || grantWrite m b⟩

/-- C6: resolve is total and returns full read+write for owner/admin;
otherwise canWrite = all_boards_write OR grant.can_write and canRead =
canWrite OR all_boards_read OR grant.can_read; with no grant and no
all-boards flags both are false. -/
theorem C6_access_resolver :
    ∀ (m : MemberRec) (b : BoardRec),
      ((m.role = Role.owner ∨ m.role = Role.admin) → resolve m b = ⟨true, true⟩) ∧
      (m.role = Role.member →
        (resolve m b).canWrite = (m.allBoardsWrite || grantWrite m b) ∧
        (resolve m b).canRead =
          ((resolve m b).canWrite || m.allBoardsRead || grantRead m b)) ∧
      (m.role = Role.member →
        m.grants.find? (fun g => g.boardId == b.id) = none →
        m.allBoardsRead = false → m.allBoardsWrite = false →
        resolve m b = ⟨false, false⟩) := by
  intro m b
  refine ⟨?_, ?_, ?_⟩
  · intro hr
    unfold resolve
    rw [if_pos hr]
  · intro hr
    have hnot : ¬ (m.role = Role.owner ∨ m.role = Role.admin) := by
      rw [hr]
      rintro (hc | hc) <;> exact Role.noConfusion hc
    unfold resolve
    rw [if_neg hnot]
    exact ⟨rfl, rfl⟩
  · intro hr hg har haw
    have hnot : ¬ (m.role = Role.owner ∨ m.role = Role.admin) := by
      rw [hr]
      rintro (hc | hc) <;> exact Role.noConfusion hc
    unfold resolve
    rw [if_neg hnot]
    unfold grantWrite grantRead
    rw [hg, har, haw]
    rfl

/-- Witness for C6: an owner gets full access; a plain member with no
grants and no flags gets none. -/
theorem C6_access_resolver_witness :
    resolve ⟨Role.owner, false, false, []⟩ ⟨1⟩ = ⟨true, true⟩ ∧
    resolve ⟨Role.member, false, false, []⟩ ⟨1⟩ = ⟨false, false⟩ := by
  constructor
  · exact (C6_access_resolver ⟨Role.owner, false, false, []⟩ ⟨1⟩).1 (Or.inl rfl)
  · exact (C6_access_resolver ⟨Role.member, false, false, []⟩ ⟨1⟩).2.2 rfl rfl rfl rfl

/-- Props of the TaskCard component that feed the status indicators, from
src/frontend/src/components/molecules/TaskCard.tsx (status is optional;
approvalsPendingCount defaults to 0, isBlocked to false). -/
structure TaskCardProps where
  status : Option Status
  approvalsPendingCount : Nat
  isBlocked : Bool
deriving DecidableEq, Repr

/-- TaskCard.tsx line 38: approvalsPendingCount > 0. -/
def hasPendingApproval (p : TaskCardProps) : Bool :=
  decide (0 < p.approvalsPendingCount)

/-- TaskCard.tsx line 39:
status === "review" && !isBlocked && !hasPendingApproval. -/
def needsLeadReview (p : TaskCardProps) : Bool :=
  (p.status == some Status.review) && !p.isBlocked && !(hasPendingApproval p)

/-- TaskCard.tsx lines 109-114: the "Waiting for lead review" block is
rendered exactly when needsLeadReview holds. -/
def rendersLeadReviewIndicator (p : TaskCardProps) : Bool :=
  needsLeadReview p

/-- C9: the "Waiting for lead review" indicator is rendered iff the status
is review, the task is not blocked and no approval is pending; a pending
approval or the blocked flag always suppresses it. -/
theorem C9_lead_review_indicator :
    (∀ p : TaskCardProps,
      rendersLeadReviewIndicator p = true ↔
        (p.status = some Status.review ∧ p.isBlocked = false ∧
          p.approvalsPendingCount = 0)) ∧
    (∀ p : TaskCardProps,
      (0 < p.approvalsPendingCount ∨ p.isBlocked = true) →
      rendersLeadReviewIndicator p = false) := by
  constructor
  · intro p
    unfold rendersLeadReviewIndicator needsLeadReview hasPendingApproval
    simp only [Bool.and_eq_true, Bool.not_eq_true', beq_iff_eq,
      decide_eq_false_iff_not, Nat.not_lt, Nat.le_zero]
    constructor
    · rintro ⟨⟨h1, h2⟩, h3⟩
      exact ⟨h1, h2, h3⟩
    · rintro ⟨h1, h2, h3⟩
      exact ⟨⟨h1, h2⟩, h3⟩
  · intro p h
    unfold rendersLeadReviewIndicator needsLeadReview hasPendingApproval
    rcases h with h | h
    · have hd : decide (0 < p.approvalsPendingCount) = true := decide_eq_true h
      simp [hd]
    · simp [h]

/-- Witness for C9: a review task with one pending approval does not show
the lead-review indicator. -/
theorem C9_lead_review_indicator_witness :
    rendersLeadReviewIndicator ⟨some Status.review, 1, false⟩ = false := by
  exact C9_lead_review_indicator.2 ⟨some Status.review, 1, false⟩ (Or.inl (by decide))

/-- The first regex alternative of formatters.ts line 15: an unanchored
test for the character z or Z anywhere in the string. -/
def containsZChar (s : String) : Bool :=
  s.toList.any (fun c => c == 'z' || c == 'Z')

/-- The second regex alternative of formatters.ts line 15: the string ends
with a sign, two digits, a colon and two digits. -/
def endsWithOffset (s : String) : Bool :=
  match s.toList.reverse with
  | d2 :: d1 :: c :: d4 :: d3 :: sign :: _ =>
      (sign == '+' || sign == '-') && d3.isDigit && d4.isDigit &&
        (c == ':') && d1.isDigit && d2.isDigit
  | _ => false

/-- formatters.ts line 15: hasTimeZone tests the regex against value. -/
def hasTimeZone (s : String) : Bool :=
  containsZChar s || endsWithOffset s

/-- formatters.ts line 16: append "Z" unless the regex matched. -/
def normalizeTimestamp (s : String) : String :=
  if hasTimeZone s then s else s ++ "Z"

/-- formatters.ts parseTimestamp over an abstract JavaScript Date parser
(new Date + isNaN check): null input and the empty string (both falsy)
give null, otherwise the normalized string is parsed. -/
def parseTimestamp {α : Type} (jsParse : String → Option α)
    (value : Option String) : Option α :=
  match value with
  | none => none
  | some v => if v = "" then none else jsParse (normalizeTimestamp v)

/-- formatters.ts formatTimestamp: fallback when parseTimestamp is null,
otherwise the locale rendering of the date. -/
def formatTimestamp {α : Type} (jsParse : String → Option α) (render : α → String)
    (value : Option String) (fallback : String) : String :=
  match parseTimestamp jsParse value with
  | none => fallback
  | some d => render d

/-- formatters.ts formatRelativeTimestamp: same fallback structure with a
relative-time rendering. -/
def formatRelativeTimestamp {α : Type} (jsParse : String → Option α)
    (renderRel : α → String) (value : Option String) (fallback : String) : String :=
  match parseTimestamp jsParse value with
  | none => fallback
  | some d => renderRel d

/-- The claim's reading of the timezone test: only a trailing z/Z or a
trailing offset counts as an explicit timezone suffix. -/
def hasTrailingTZ (s : String) : Bool :=
  (match s.toList.reverse with
   | c :: _ => c == 'z' || c == 'Z'
   | [] => false) || endsWithOffset s

/-- Normalization as the claim words it: append "Z" when there is no
trailing z/Z and no trailing offset. -/
def normalizeTimestampClaim (s : String) : String :=
  if hasTrailingTZ s then s else s ++ "Z"

/-- Counterexample to C10 as stated: a string with a non-trailing z has no
timezone suffix in the claim's sense, yet the code's unanchored regex
matches it and no "Z" is appended. -/
theorem C10_parse_timestamp_counterexample :
    hasTimeZone "z2026-01-01T00:00:00" = true ∧
    hasTrailingTZ "z2026-01-01T00:00:00" = false ∧
    normalizeTimestamp "z2026-01-01T00:00:00" = "z2026-01-01T00:00:00" ∧
    normalizeTimestampClaim "z2026-01-01T00:00:00" = "z2026-01-01T00:00:00Z" ∧
    normalizeTimestamp "z2026-01-01T00:00:00" ≠
      normalizeTimestampClaim "z2026-01-01T00:00:00" := by
  refine ⟨by decide, by decide, by decide, by decide, by decide⟩

/-- C10 (amended): parseTimestamp appends "Z" before parsing exactly when
the string contains no z/Z character anywhere and does not end with a
±HH:MM offset; it returns null exactly when the input is null/undefined,
empty, or the (normalized) string does not parse to a valid date; and the
two formatters return the fallback dash exactly for those inputs, given a
renderer that never emits the fallback itself. -/
theorem C10_parse_timestamp_amended :
    ∀ (α : Type) (jsParse : String → Option α) (render renderRel : α → String)
      (fb : String) (v : String),
      (hasTimeZone v = false → v ≠ "" →
        parseTimestamp jsParse (some v) = jsParse (v ++ "Z")) ∧
      (hasTimeZone v = true → v ≠ "" →
        parseTimestamp jsParse (some v) = jsParse v) ∧
      parseTimestamp jsParse (none : Option String) = (none : Option α) ∧
      parseTimestamp jsParse (some "") = (none : Option α) ∧
      (parseTimestamp jsParse (some v) = none ↔
        (v = "" ∨ jsParse (normalizeTimestamp v) = none)) ∧
      ((∀ d : α, render d ≠ fb) →
        (formatTimestamp jsParse render (some v) fb = fb ↔
          parseTimestamp jsParse (some v) = none)) ∧
      ((∀ d : α, renderRel d ≠ fb) →
        (formatRelativeTimestamp jsParse renderRel (some v) fb = fb ↔
          parseTimestamp jsParse (some v) = none)) := by
  intro α jsParse render renderRel fb v
  refine ⟨?_, ?_, rfl, rfl, ?_, ?_, ?_⟩
  · intro htz hv
    simp [parseTimestamp, normalizeTimestamp, hv, htz]
  · intro htz hv
    simp [parseTimestamp, normalizeTimestamp, hv, htz]
  · by_cases hv : v = ""
    · subst hv
      simp [parseTimestamp]
    · simp [parseTimestamp, hv]
  · intro hrender
    unfold formatTimestamp
    cases hp : parseTimestamp jsParse (some v) with
    | none => simp
    | some d =>
      simp only []
      constructor
      · intro hc
        exact absurd hc (hrender d)
      · intro hc
        exact Option.noConfusion hc
  · intro hrender
    unfold formatRelativeTimestamp
    cases hp : parseTimestamp jsParse (some v) with
    | none => simp
    | some d =>
      simp only []
      constructor
      · intro hc
        exact absurd hc (hrender d)
      · intro hc
        exact Option.noConfusion hc

/-- Parser stub for the C10 witness: accepts exactly one normalized
string. -/
def witJsParse : String → Option Nat :=
  fun s => if s = "2026-01-01T00:00:00Z" then some 0 else none

/-- Witness for C10 (amended): the suffix-free string gets "Z" appended
and parses; an unparseable string makes formatTimestamp fall back. -/
theorem C10_parse_timestamp_amended_witness :
    parseTimestamp witJsParse (some "2026-01-01T00:00:00") =
      witJsParse ("2026-01-01T00:00:00" ++ "Z") ∧
    (formatTimestamp witJsParse (fun _ => "x") (some "bogus") "fb" = "fb" ↔
      parseTimestamp witJsParse (some "bogus") = none) := by
  constructor
  · exact (C10_parse_timestamp_amended Nat witJsParse (fun _ => "x") (fun _ => "x")
      "fb" "2026-01-01T00:00:00").1 (by decide) (by decide)
  · exact (C10_parse_timestamp_amended Nat witJsParse (fun _ => "x") (fun _ => "x")
      "fb" "bogus").2.2.2.2.2.1 (fun d => by decide)
